import Mathlib

/-!
Verification of the video codec pipeline of this repository.

The repository contains three sibling implementations of the same
four-stage pipeline (RGB24 to planar YUV420, temporal byte deltas,
DEFLATE wrapper, and the inverse path):

* `src/test_c/first_iter/main.c` (plus `init_encoder.c`) -- the complete C
  implementation;
* `src/unnamed/part_003` .. `part_008` -- per-function C files of the same
  codec (`decode_frames`, `create_delta_frames`, `read_frames`,
  `convert_to_yuv420`, `compressed_frames`, `codec.h`);
* `src/main.go` -- the Go implementation.

Bytes (C `unsigned char`) are modelled as `Nat` with explicit `% 256`
arithmetic.  C `float` arithmetic on small decimal coefficients is modelled
by exact rationals; the `(unsigned char)` cast of a clamped nonnegative
value is `Rat.floor` followed by `Int.toNat`.  The zlib stream itself is
external to the repository: the decompressed byte stream is abstracted as a
plain list, and only the repository logic around it (chunking, flush-flag
selection, delta reconstruction) is modelled.
-/

/-- C `unsigned char` addition: `a + b` truncated to 8 bits
    (`frames[i].data[j] += frames[i-1].data[j]` in `decode_frames`). -/
def byteAdd (a b : Nat) : Nat := (a % 256 + b % 256) % 256

/-- C `unsigned char` subtraction with wraparound
    (`frames[i].data[j] -= frames[i-1].data[j]` in `create_delta_frames`). -/
def byteSub (a b : Nat) : Nat := (a % 256 + 256 - b % 256) % 256

/-- Inner recursion of `create_delta_frames` (src/unnamed/part_004, and
    src/test_c/first_iter/main.c lines 205-212).  The C loop runs
    `for (i = frame_count - 1; i > 0; i--)` and mutates in place; because
    the index descends, `frames[i-1]` is still in its original form when
    frame `i` is rewritten, so the loop equals this functional form in
    which `prev` is always the original predecessor frame. -/
def deltaGo : List Nat → List (List Nat) → List (List Nat)
  | _, [] => []
  | prev, f :: fs => List.zipWith byteSub f prev :: deltaGo f fs

/-- `create_delta_frames` (src/unnamed/part_004): frame 0 is untouched,
    every later frame becomes the byte-wise difference from its
    predecessor. -/
def create_delta_frames : List (List Nat) → List (List Nat)
  | [] => []
  | f0 :: rest => f0 :: deltaGo f0 rest

/-- Inner recursion of the delta-reconstruction loop of `decode_frames`
    (src/unnamed/part_003 lines 37-40).  The C loop ascends
    (`for (i = 1; i < frame_count; i++)`), so `frames[i-1]` is already
    reconstructed when frame `i` is processed; `prev` is therefore the
    reconstructed predecessor. -/
def accumGo : List Nat → List (List Nat) → List (List Nat)
  | _, [] => []
  | prev, f :: fs =>
    List.zipWith byteAdd f prev :: accumGo (List.zipWith byteAdd f prev) fs

/-- The delta-reconstruction pass of `decode_frames`: frame 0 untouched,
    every later frame is the byte-wise sum with the reconstructed
    predecessor. -/
def add_delta_frames : List (List Nat) → List (List Nat)
  | [] => []
  | f0 :: rest => f0 :: accumGo f0 rest

/-- The decompression loop of `decode_frames` (src/unnamed/part_003 lines
    25-32): for each of `frame_count` frames it mallocs `yuv_size` bytes
    and lets `inflate` fill up to `yuv_size` bytes from the remaining
    decompressed stream.  The return value of `inflate` is never checked,
    so when the stream runs short the remaining bytes of the malloced
    buffer are simply left unwritten (uninitialized memory, modelled
    deterministically as 0). -/
def inflateChunks : Nat → List Nat → Nat → List (List Nat)
  | _, _, 0 => []
  | ysize, s, n + 1 =>
    (s.take ysize ++ List.replicate (ysize - s.length) 0)
      :: inflateChunks ysize (s.drop ysize) n

/-- `decode_frames` (src/unnamed/part_003): the decompressed stream `s` is
    cut into `frame_count` buffers of `yuv_size` bytes, then the delta
    reconstruction runs.  Of the `encoder_context` only `yuv_size` is read,
    so the model takes it directly. -/
def decode_frames (ysize : Nat) (s : List Nat) (frame_count : Nat) :
    List (List Nat) :=
  add_delta_frames (inflateChunks ysize s frame_count)

/-- Fuel-driven rendering of the frame-counting loop of `read_frames` in
    src/unnamed/part_005 line 36:
    `while ((bytes_read = fread(buffer, 1, ctx->frame_size, fp))) count++;`
    Each `fread` returns `min fs len` of the `len` bytes still unread, and
    the loop continues while that is nonzero.  For `fs >= 1` the unread
    length strictly decreases, so `fuel = len` is enough for the recursion
    to agree with the C loop. -/
def countReadsAux (fs : Nat) : Nat → Nat → Nat
  | 0, _ => 0
  | fuel + 1, len => if len = 0 then 0 else 1 + countReadsAux fs fuel (len - fs)

/-- Frame count computed by `read_frames` of src/unnamed/part_005 for a
    file of `len` bytes: the number of `fread` calls that return a nonzero
    byte count. -/
def frame_count_part005 (fs len : Nat) : Nat := countReadsAux fs len len

/-- Frame count computed by `read_frames` of src/test_c/first_iter/main.c
    line 121: `while ((bytes_read = fread(...)) == ctx->frame_size)` counts
    only full reads.  Reads are sequential, `fread` returns `frame_size`
    exactly while at least `frame_size` bytes remain, so the count is the
    floor of `len / fs`. -/
def frame_count_firstIter (fs len : Nat) : Nat := len / fs

/-- Flush argument passed to `deflate` for one input chunk. -/
inductive FlushMode where
  | noFlush : FlushMode
  | finish : FlushMode
deriving DecidableEq

/-- Flush flags chosen by `compressed_frames` in src/unnamed/part_007 line
    52: `deflate(&strm, (i == frame_count) ? Z_FINISH : Z_NO_FLUSH)` inside
    `for (i = 0; i < frame_count; i++)`. -/
def flushSeq_part007 (frame_count : Nat) : List FlushMode :=
  (List.range frame_count).map
    (fun i => if i = frame_count then FlushMode.finish else FlushMode.noFlush)

/-- Flush flags chosen by `compress_frames` in src/test_c/first_iter/main.c
    line 255: `deflate(&strm, (i == frame_count - 1) ? Z_FINISH : Z_NO_FLUSH)`. -/
def flushSeq_firstIter (frame_count : Nat) : List FlushMode :=
  (List.range frame_count).map
    (fun i => if i = frame_count - 1 then FlushMode.finish else FlushMode.noFlush)

/-- `ctx->frame_size = width * height * 3` (init_encoder.c). -/
def frame_size (w h : Nat) : Nat := w * h * 3

/-- `ctx->yuv_size = width * height + (width * height / 2)` (init_encoder.c). -/
def yuv_size (w h : Nat) : Nat := w * h + w * h / 2

/-- Size of each chroma plane inside the YUV buffer: the V base pointer of
    `convert_to_yuv420` is `U + (ctx->width * ctx->height / 4)`, so each of
    the U and V planes spans `width * height / 4` bytes. -/
def uvPlaneSize (w h : Nat) : Nat := w * h / 4

/-- Chroma-plane index computed by `convert_to_yuv420` for a pixel at row
    `i`, column `j`: `(i/2) * (ctx->width/2) + j/2` (the V write of
    src/unnamed/part_006 line 39 and both chroma writes of
    src/test_c/first_iter/main.c lines 186-187). -/
def chromaIndex (w i j : Nat) : Nat := i / 2 * (w / 2) + j / 2

/-- `clamp` from helper_fn.c / main.c: branch on the comparisons. -/
def clamp (x lo hi : ℚ) : ℚ := if x < lo then lo else if x > hi then hi else x

/-- The `(unsigned char)` cast applied to a clamped `float` in `[0, 255]`:
    truncation toward zero, i.e. the floor of a nonnegative value. -/
def uchar (x : ℚ) : Nat := x.floor.toNat

/-- Colour conversion constants of codec.h (ITU-R BT.601), as exact
    decimals. -/
def YUV_Y_R : ℚ := 299 / 1000
def YUV_Y_G : ℚ := 587 / 1000
def YUV_Y_B : ℚ := 114 / 1000
def YUV_U_R : ℚ := -169 / 1000
def YUV_U_G : ℚ := -331 / 1000
def YUV_U_B : ℚ := 449 / 1000
def YUV_V_R : ℚ := 499 / 1000
def YUV_V_G : ℚ := -418 / 1000
def YUV_V_B : ℚ := -813 / 10000

/-- Red byte of pixel `p`: `rgb[idx]` with `idx = (i*width + j) * 3`,
    written here as `3 * p`. -/
def rgbR (frame : List Nat) (p : Nat) : ℚ := (frame.getD (3 * p) 0 : Nat)

/-- Green byte of pixel `p`: `rgb[idx + 1]`. -/
def rgbG (frame : List Nat) (p : Nat) : ℚ := (frame.getD (3 * p + 1) 0 : Nat)

/-- Blue byte of pixel `p`: `rgb[idx + 2]`. -/
def rgbB (frame : List Nat) (p : Nat) : ℚ := (frame.getD (3 * p + 2) 0 : Nat)

/-- Luma byte for pixel `p`:
    `Y[i*width+j] = (unsigned char)clamp(YUV_Y_R*r + YUV_Y_G*g + YUV_Y_B*b, 0, 255)`. -/
def lumaOf (frame : List Nat) (p : Nat) : Nat :=
  uchar (clamp (YUV_Y_R * rgbR frame p + YUV_Y_G * rgbG frame p
    + YUV_Y_B * rgbB frame p) 0 255)

/-- U chroma byte for pixel `p`:
    `(unsigned char)clamp(YUV_U_R*r + YUV_U_G*g + YUV_U_B*b + 128, 0, 255)`. -/
def uOf (frame : List Nat) (p : Nat) : Nat :=
  uchar (clamp (YUV_U_R * rgbR frame p + YUV_U_G * rgbG frame p
    + YUV_U_B * rgbB frame p + 128) 0 255)

/-- The nested pixel loop of `convert_to_yuv420` and of the Go decoder:
    `(i, j)` for `i` over rows then `j` over columns, in execution order. -/
def loopPairs (h w : Nat) : List (Nat × Nat) :=
  (List.range h).flatMap (fun i => (List.range w).map (fun j => (i, j)))

/-- The Y plane built by `convert_to_yuv420`: the loop writes
    `Y[i * ctx->width + j]` for every pixel.  The plane is the first
    `width * height` bytes of the malloced YUV buffer; unwritten malloc
    contents are modelled as 0 (every Y cell is in fact written). -/
def Yplane (w h : Nat) (frame : List Nat) : List Nat :=
  (loopPairs h w).foldl
    (fun acc ij => acc.set (ij.1 * w + ij.2) (lumaOf frame (ij.1 * w + ij.2)))
    (List.replicate (h * w) 0)

/-- The U plane built by `convert_to_yuv420` of src/unnamed/part_006 line
    38, which reads literally
    `U[(1/2) * (ctx->width/2) + j/2] = (unsigned char)clamp(u, 0, 255);`
    -- integer `1/2`, not `i/2`, so the row term is always 0. -/
def Uplane_part006 (w h : Nat) (frame : List Nat) : List Nat :=
  (loopPairs h w).foldl
    (fun acc ij =>
      if ij.1 % 2 = 0 ∧ ij.2 % 2 = 0 then
        acc.set (1 / 2 * (w / 2) + ij.2 / 2) (uOf frame (ij.1 * w + ij.2))
      else acc)
    (List.replicate (w * h / 4) 0)

/-- The U plane built by `convert_to_yuv420` of
    src/test_c/first_iter/main.c line 186:
    `U[(i/2) * (ctx->width/2) + j/2] = (unsigned char)clamp(u, 0, 255);`. -/
def Uplane_firstIter (w h : Nat) (frame : List Nat) : List Nat :=
  (loopPairs h w).foldl
    (fun acc ij =>
      if ij.1 % 2 = 0 ∧ ij.2 % 2 = 0 then
        acc.set (ij.1 / 2 * (w / 2) + ij.2 / 2) (uOf frame (ij.1 * w + ij.2))
      else acc)
    (List.replicate (w * h / 4) 0)

/-- Start offset of the V plane slice taken by the Go decoder,
    src/main.go line 269: `V := frame[width*height+width+height/4:]`
    (literally `width*height + width + height/4`). -/
def vStart_go (w h : Nat) : Nat := w * h + w + h / 4

/-- Start offset of the V plane as the claim and spec state it:
    `width*height + width*height/4`.  Named separately from the source so
    the two can be compared. -/
def vStartSpec (w h : Nat) : Nat := w * h + w * h / 4

/-- The YUV-to-RGB pass of src/main.go lines 266-286.  `Y`, `U`, `V` are
    the slices taken by the Go code (including the literal
    `width*height+width+height/4` lower bound of the V slice); every index
    into them is checked the way Go checks slice indexing, with a panic
    modelled as `none`.  Each pixel appends
    `uint8(clamp(y + 1.402v)), uint8(clamp(y - 0.344u - 0.714v)),
    uint8(clamp(y + 1.772u))`. -/
def inverse_frame_go (w h : Nat) (frame : List Nat) : Option (List Nat) := do
  let Yp := frame.take (w * h)
  let Up := (frame.drop (w * h)).take (w * h / 4)
  let Vp := frame.drop (vStart_go w h)
  let px ← (loopPairs h w).mapM (fun jk => do
    let yb ← Yp.get? (jk.1 * w + jk.2)
    let ub ← Up.get? (jk.1 / 2 * (w / 2) + jk.2 / 2)
    let vb ← Vp.get? (jk.1 / 2 * (w / 2) + jk.2 / 2)
    let y : ℚ := (yb : Nat)
    let u : ℚ := (ub : Nat) - 128
    let v : ℚ := (vb : Nat) - 128
    pure [uchar (clamp (y + 1402 / 1000 * v) 0 255),
      uchar (clamp (y - 344 / 1000 * u - 714 / 1000 * v) 0 255),
      uchar (clamp (y + 1772 / 1000 * u) 0 255)])
  pure px.flatten

/-- Concrete 2x4 RGB frame (width 2, height 4): every pixel black except
    pixel (row 2, col 0), which is pure red. -/
def frameC4 : List Nat :=
  [0, 0, 0, 0, 0, 0, 0, 0, 0, 0, 0, 0, 255, 0, 0, 0, 0, 0, 0, 0, 0, 0, 0, 0]

/-! ## Helper lemmas -/

theorem byte_roundtrip (a b : Nat) : byteAdd (byteSub a b) b = a % 256 := by
  unfold byteAdd byteSub
  omega

theorem zip_roundtrip (f : List Nat) : ∀ prev : List Nat,
    f.length = prev.length → (∀ x ∈ f, x < 256) →
    List.zipWith byteAdd (List.zipWith byteSub f prev) prev = f := by
  induction f with
  | nil => intro prev _ _; simp
  | cons a as ih =>
    intro prev hlen hb
    cases prev with
    | nil => simp at hlen
    | cons b bs =>
      rw [List.zipWith_cons_cons, List.zipWith_cons_cons, byte_roundtrip,
        Nat.mod_eq_of_lt (hb a (by simp))]
      rw [ih bs (by simpa using hlen) (fun x hx => hb x (by simp [hx]))]

theorem go_roundtrip (rest : List (List Nat)) : ∀ (prev : List Nat) (L : Nat),
    prev.length = L → (∀ g ∈ rest, g.length = L) →
    (∀ g ∈ rest, ∀ x ∈ g, x < 256) →
    accumGo prev (deltaGo prev rest) = rest := by
  induction rest with
  | nil => intro prev L _ _ _; rfl
  | cons f fs ih =>
    intro prev L hp hlen hb
    show List.zipWith byteAdd (List.zipWith byteSub f prev) prev
        :: accumGo (List.zipWith byteAdd (List.zipWith byteSub f prev) prev)
          (deltaGo f fs) = f :: fs
    have hf : List.zipWith byteAdd (List.zipWith byteSub f prev) prev = f :=
      zip_roundtrip f prev (by rw [hlen f (by simp), hp]) (hb f (by simp))
    rw [hf]
    rw [ih f L (hlen f (by simp)) (fun g hg => hlen g (by simp [hg]))
      (fun g hg => hb g (by simp [hg]))]

theorem deltaGo_get (rest : List (List Nat)) : ∀ (prev : List Nat) (i : Nat),
    (deltaGo prev rest).get? i =
      Option.map₂ (fun c p => List.zipWith byteSub c p)
        (rest.get? i) ((prev :: rest).get? i) := by
  induction rest with
  | nil => intro prev i; simp [deltaGo, Option.map₂]
  | cons f fs ih =>
    intro prev i
    cases i with
    | zero => simp [deltaGo, Option.map₂]
    | succ n => simpa [deltaGo] using ih f n

theorem inflateChunks_length (ysize : Nat) : ∀ (n : Nat) (s : List Nat),
    (inflateChunks ysize s n).length = n := by
  intro n
  induction n with
  | zero => intro s; rfl
  | succ m ih => intro s; simp [inflateChunks, ih]

theorem inflateChunks_sizes (ysize : Nat) : ∀ (n : Nat) (s : List Nat),
    ∀ f ∈ inflateChunks ysize s n, f.length = ysize := by
  intro n
  induction n with
  | zero => intro s f hf; simp [inflateChunks] at hf
  | succ m ih =>
    intro s f hf
    rw [inflateChunks] at hf
    rcases List.mem_cons.mp hf with h | h
    · subst h
      simp only [List.length_append, List.length_take, List.length_replicate]
      omega
    · exact ih (s.drop ysize) f h

theorem accumGo_shape (rest : List (List Nat)) : ∀ (prev : List Nat) (L : Nat),
    prev.length = L → (∀ f ∈ rest, f.length = L) →
    (accumGo prev rest).length = rest.length ∧
      ∀ f ∈ accumGo prev rest, f.length = L := by
  induction rest with
  | nil => intro prev L _ _; exact ⟨rfl, by intro f hf; simp [accumGo] at hf⟩
  | cons f fs ih =>
    intro prev L hp hlen
    have hcur : (List.zipWith byteAdd f prev).length = L := by
      rw [List.length_zipWith, hlen f (by simp), hp]
      simp
    obtain ⟨ihl, ihm⟩ := ih (List.zipWith byteAdd f prev) L hcur
      (fun g hg => hlen g (by simp [hg]))
    refine ⟨by simpa [accumGo] using ihl, ?_⟩
    intro g hg
    rw [accumGo] at hg
    rcases List.mem_cons.mp hg with h | h
    · subst h; exact hcur
    · exact ihm g h

theorem decode_frames_shape_aux (ysize n : Nat) (s : List Nat) :
    (decode_frames ysize s n).length = n ∧
      ∀ f ∈ decode_frames ysize s n, f.length = ysize := by
  unfold decode_frames
  have hlen := inflateChunks_length ysize n s
  have hsz := inflateChunks_sizes ysize n s
  cases hc : inflateChunks ysize s n with
  | nil =>
    rw [hc] at hlen
    exact ⟨by simpa [add_delta_frames] using hlen, by
      intro f hf; simp [add_delta_frames] at hf⟩
  | cons f0 cs =>
    rw [hc] at hlen hsz
    obtain ⟨hl, hm⟩ := accumGo_shape cs f0 ysize (hsz f0 (by simp))
      (fun g hg => hsz g (by simp [hg]))
    constructor
    · show (f0 :: accumGo f0 cs).length = n
      simp only [List.length_cons, hl]
      simpa using hlen
    · intro f hf
      rw [show add_delta_frames (f0 :: cs) = f0 :: accumGo f0 cs from rfl] at hf
      rcases List.mem_cons.mp hf with h | h
      · subst h; exact hsz f (by simp)
      · exact hm f h

/-! ## Claim theorems -/

/-- C1: for every frame sequence of byte buffers of equal length,
    `create_delta_frames` (delta mod 256, computed from the last frame down
    to frame 1) followed by the delta reconstruction of `decode_frames`
    (sum mod 256, frame 1 up) restores the sequence exactly, including
    single-frame sequences where both passes are the identity. -/
theorem temporal_roundtrip (S : List (List Nat)) (L : Nat)
    (hlen : ∀ f ∈ S, f.length = L) (hbyte : ∀ f ∈ S, ∀ x ∈ f, x < 256) :
    add_delta_frames (create_delta_frames S) = S := by
  cases S with
  | nil => rfl
  | cons f0 rest =>
    show f0 :: accumGo f0 (deltaGo f0 rest) = f0 :: rest
    rw [go_roundtrip rest f0 L (hlen f0 (by simp))
      (fun g hg => hlen g (by simp [hg]))
      (fun g hg => hbyte g (by simp [hg]))]

/-- Witness for C1 at the concrete two-frame sequence `[[1,255],[0,7]]`. -/
theorem temporal_roundtrip_witness :
    (∀ f ∈ ([[1, 255], [0, 7]] : List (List Nat)), f.length = 2) ∧
      add_delta_frames (create_delta_frames [[1, 255], [0, 7]])
        = [[1, 255], [0, 7]] :=
  ⟨by decide, temporal_roundtrip [[1, 255], [0, 7]] 2 (by decide) (by decide)⟩

/-- C6: frame 0 is left byte-for-byte unchanged both by
    `create_delta_frames` and by the delta reconstruction of
    `decode_frames`, and every frame at index `i + 1` of the forward pass
    is exactly the byte-wise difference from the original frame at index
    `i` -- only indices at least 1 are delta-encoded. -/
theorem anchor_frame_verbatim (S : List (List Nat)) :
    (create_delta_frames S).head? = S.head? ∧
      (add_delta_frames S).head? = S.head? ∧
      ∀ i, (create_delta_frames S).get? (i + 1) =
        Option.map₂ (fun c p => List.zipWith byteSub c p)
          (S.get? (i + 1)) (S.get? i) := by
  cases S with
  | nil =>
    refine ⟨rfl, rfl, fun i => ?_⟩
    simp [create_delta_frames, Option.map₂]
  | cons f0 rest =>
    refine ⟨rfl, rfl, fun i => ?_⟩
    simpa [create_delta_frames] using deltaGo_get rest f0 i

/-- C10: the decoded output of `decode_frames` always consists of exactly
    `frame_count` frames of exactly `yuv_size` bytes each, whatever the
    decompressed payload holds -- the shape depends only on the
    caller-supplied context and frame count. -/
theorem decode_frames_shape (ysize n : Nat) (s : List Nat) :
    (decode_frames ysize s n).length = n ∧
      ∀ f ∈ decode_frames ysize s n, f.length = ysize :=
  decode_frames_shape_aux ysize n s

/-- C2 counterexample: a decompressed stream of 6 bytes where
    `2 * yuv_size = 12` bytes are expected.  `decode_frames` does not fail:
    it silently returns two full 6-byte frames, the second one fabricated
    from uninitialized memory plus delta reconstruction. -/
theorem decode_truncated_counterexample :
    decode_frames 6 [1, 2, 3, 4, 5, 6] 2
      = [[1, 2, 3, 4, 5, 6], [1, 2, 3, 4, 5, 6]] := by decide

/-- C2 amended: on a truncated decompression result (fewer than
    `frame_count * yuv_size` bytes) `decode_frames` raises no error at all;
    it still returns exactly `frame_count` frames of `yuv_size` bytes each,
    silently. -/
theorem decode_truncated_silent (ysize n : Nat) (s : List Nat)
    (htrunc : s.length < n * ysize) :
    (decode_frames ysize s n).length = n ∧
      ∀ f ∈ decode_frames ysize s n, f.length = ysize :=
  decode_frames_shape_aux ysize n s

/-- Witness for the amended C2 at a concrete truncated stream. -/
theorem decode_truncated_silent_witness :
    ([1, 2, 3] : List Nat).length < 2 * 6 ∧
      (decode_frames 6 [1, 2, 3] 2).length = 2 :=
  ⟨by decide, (decode_truncated_silent 6 2 [1, 2, 3] (by decide)).1⟩

/-- C3: `compressed_frames` of src/unnamed/part_007 tests `i == frame_count`
    inside a loop bounded by `i < frame_count`, so `Z_FINISH` is passed on
    no chunk at all: the deflate stream is never finalized.  The first
    conjunct shows the finish flush is absent for every frame count; the
    remaining conjuncts evaluate the flag sequences at the concrete failing
    input `frame_count = 2`, where main.c issues the finish exactly on the
    last chunk as the claim states. -/
theorem part007_never_finishes :
    (∀ n, FlushMode.finish ∉ flushSeq_part007 n) ∧
      flushSeq_part007 2 = [FlushMode.noFlush, FlushMode.noFlush] ∧
      flushSeq_firstIter 2 = [FlushMode.noFlush, FlushMode.finish] := by
  refine ⟨?_, by decide, by decide⟩
  intro n hmem
  rw [flushSeq_part007, List.mem_map] at hmem
  obtain ⟨i, hi, heq⟩ := hmem
  rw [List.mem_range] at hi
  by_cases hin : i = n
  · omega
  · rw [if_neg hin] at heq
    exact absurd heq (by decide)

/-- C4: in `convert_to_yuv420` of src/unnamed/part_006 the U sample is
    written at `U[(1/2) * (width/2) + j/2]` -- integer `1/2 = 0` -- so
    every U sample lands in row 0 of the U plane instead of row `i/2`.  On
    a 2x4 frame whose only non-black pixel is (row 2, col 0), the U plane
    comes out `[84, 0]`: the row-2 sample overwrote the row-0 sample at
    index 0 and index 1 was never written.  main.c (and the claim) place
    the samples at `(i/2) * (width/2) + j/2`, giving `[128, 84]`. -/
theorem part006_u_row_bug :
    Uplane_part006 2 4 frameC4 = [84, 0] ∧
      Uplane_firstIter 2 4 frameC4 = [128, 84] := by
  have h0 : uOf frameC4 0 = 128 := by
    norm_num [uOf, rgbR, rgbG, rgbB, uchar, clamp, YUV_U_R, YUV_U_G, YUV_U_B,
      frameC4, Rat.floor]
    decide
  have h4 : uOf frameC4 4 = 84 := by
    norm_num [uOf, rgbR, rgbG, rgbB, uchar, clamp, YUV_U_R, YUV_U_G, YUV_U_B,
      frameC4, Rat.floor]
    decide
  have hlp : loopPairs 4 2
      = [(0, 0), (0, 1), (1, 0), (1, 1), (2, 0), (2, 1), (3, 0), (3, 1)] := by
    decide
  constructor
  · rw [Uplane_part006, hlp]
    norm_num [List.foldl, h0, h4]
    decide
  · rw [Uplane_firstIter, hlp]
    norm_num [List.foldl, h0, h4]
    decide

/-- C5: the frame-counting loop of `read_frames` in src/unnamed/part_005
    accepts any nonzero `fread` result, so a 13-byte file with
    `frame_size = 12` is counted as 2 frames -- the trailing 1-byte chunk
    becomes a frame instead of being dropped.  main.c compares the result
    against `frame_size` and counts `13 / 12 = 1` frame as the claim
    states. -/
theorem part005_counts_trailing_chunk :
    frame_count_part005 12 13 = 2 ∧ frame_count_firstIter 12 13 = 1 := by
  decide

theorem foldl_set_len (g : Nat → Nat) (ks : List Nat) : ∀ acc : List Nat,
    (ks.foldl (fun a k => a.set k (g k)) acc).length = acc.length := by
  induction ks with
  | nil => intro acc; rfl
  | cons k ks ih =>
    intro acc
    rw [List.foldl_cons, ih, List.length_set]

theorem foldl_set_get (g : Nat → Nat) : ∀ (n : Nat) (acc : List Nat) (idx : Nat),
    idx < n → n ≤ acc.length →
    ((List.range n).foldl (fun a k => a.set k (g k)) acc).get? idx
      = some (g idx) := by
  intro n
  induction n with
  | zero => intro acc idx hidx _; omega
  | succ m ih =>
    intro acc idx hidx hlen
    rw [List.range_succ, List.foldl_append, List.foldl_cons, List.foldl_nil]
    by_cases hm : idx = m
    · subst hm
      rw [List.get?_set_eq]
      have hl : idx < ((List.range idx).foldl (fun a k => a.set k (g k)) acc).length := by
        rw [foldl_set_len]
        omega
      rw [List.get?_eq_get hl]
      rfl
    · rw [List.get?_set_ne _ _ (fun hc => hm hc.symm)]
      exact ih acc idx (by omega) (by omega)

theorem loopPairs_map_idx (w : Nat) : ∀ h : Nat,
    (loopPairs h w).map (fun ij : Nat × Nat => ij.1 * w + ij.2)
      = List.range (h * w) := by
  intro h
  induction h with
  | zero => simp [loopPairs]
  | succ m ih =>
    rw [loopPairs, List.range_succ, List.flatMap_append, List.flatMap_cons,
      List.flatMap_nil, List.append_nil, List.map_append,
      show ((List.range m).flatMap fun i => (List.range w).map fun j => (i, j))
        = loopPairs m w from rfl,
      ih, List.map_map, Nat.succ_mul, List.range_add]
    rfl

theorem Yplane_get (w h : Nat) (frame : List Nat) (row col : Nat)
    (hr : row < h) (hc : col < w) :
    (Yplane w h frame).get? (row * w + col)
      = some (lumaOf frame (row * w + col)) := by
  have hidx : row * w + col < h * w := by
    have h1 : (row + 1) * w ≤ h * w := Nat.mul_le_mul_right w (by omega)
    have h2 : row * w + col < (row + 1) * w := by
      rw [Nat.succ_mul]
      omega
    omega
  have hmap : Yplane w h frame
      = ((loopPairs h w).map (fun ij : Nat × Nat => ij.1 * w + ij.2)).foldl
          (fun a k => a.set k (lumaOf frame k)) (List.replicate (h * w) 0) := by
    rw [List.foldl_map]
    rfl
  rw [hmap, loopPairs_map_idx]
  exact foldl_set_get (lumaOf frame) (h * w) (List.replicate (h * w) 0)
    (row * w + col) hidx (by rw [List.length_replicate])

/-- C7: the luma byte written by `convert_to_yuv420` at index
    `row * width + col` of the Y plane is
    `clamp(0.299 R + 0.587 G + 0.114 B, 0, 255)` truncated to 8 bits, where
    `R`, `G`, `B` are the three bytes of that pixel. -/
theorem luma_formula (w h : Nat) (frame : List Nat) (row col : Nat)
    (hr : row < h) (hc : col < w) :
    (Yplane w h frame).get? (row * w + col)
      = some (uchar (clamp
          ((299 / 1000) * (frame.getD (3 * (row * w + col)) 0 : Nat)
            + (587 / 1000) * (frame.getD (3 * (row * w + col) + 1) 0 : Nat)
            + (114 / 1000) * (frame.getD (3 * (row * w + col) + 2) 0 : Nat))
          0 255)) :=
  Yplane_get w h frame row col hr hc

/-- Witness for C7 on a 1x1 pure-red frame: the single luma byte is
    `clamp(0.299 * 255, 0, 255)` truncated, i.e. 76. -/
theorem luma_formula_witness :
    0 < 1 ∧ (Yplane 1 1 [255, 0, 0]).get? (0 * 1 + 0) = some 76 :=
  ⟨Nat.one_pos, (luma_formula 1 1 [255, 0, 0] 0 0 Nat.one_pos Nat.one_pos).trans
    (by norm_num [uchar, clamp, Rat.floor]; decide)⟩

/-- C8: the Go decoder slices the V plane at
    `width*height + width + height/4` (src/main.go line 269) instead of the
    claimed `width*height + width*height/4` -- the `*` between `width` and
    `height/4` is missing.  For a 2x2 frame the slice starts at offset 6,
    the end of the 6-byte YUV frame, so the V slice is empty and the very
    first chroma lookup indexes out of range (a Go panic, modelled as
    `none`); the claimed offset would be 5. -/
theorem mainGo_v_plane_offset_bug :
    vStart_go 2 2 = 6 ∧ vStartSpec 2 2 = 5 ∧
      inverse_frame_go 2 2 [0, 0, 0, 0, 128, 128] = none := by
  refine ⟨rfl, rfl, ?_⟩
  decide

/-- C9 counterexample: for the odd dimensions `width = height = 3` the
    chroma position (row 2, col 2) -- an even/even pixel inside the frame
    -- gets index `(2/2)*(3/2) + 2/2 = 2`, which is not inside the
    `3*3/4 = 2`-byte chroma plane; the corresponding V write would land at
    absolute offset `w*h + w*h/4 + 2 = 13 = yuv_size 3 3`, one past the end
    of the malloced YUV buffer. -/
theorem chroma_index_out_of_bounds_odd :
    (3 : Nat) % 2 = 1 ∧ (2 : Nat) % 2 = 0 ∧ 2 < 3 ∧
      chromaIndex 3 2 2 = uvPlaneSize 3 3 ∧
      ¬ chromaIndex 3 2 2 < uvPlaneSize 3 3 ∧
      3 * 3 + 3 * 3 / 4 + chromaIndex 3 2 2 = yuv_size 3 3 := by decide

/-- C9 amended: when both `width` and `height` are even, every chroma
    index `(i/2)*(width/2) + j/2` computed by `convert_to_yuv420` for a
    pixel inside the frame stays strictly within the
    `width*height/4`-byte chroma plane; the original claim asserted this
    for odd dimensions, where it fails. -/
theorem chroma_index_in_bounds_even (w h i j : Nat) (hw : w % 2 = 0)
    (hh : h % 2 = 0) (hi : i < h) (hj : j < w) :
    chromaIndex w i j < uvPlaneSize w h := by
  obtain ⟨a, rfl⟩ : ∃ a, w = 2 * a := ⟨w / 2, by omega⟩
  obtain ⟨b, rfl⟩ : ∃ b, h = 2 * b := ⟨h / 2, by omega⟩
  unfold chromaIndex uvPlaneSize
  have h2a : 2 * a / 2 = a := by omega
  have hsize : 2 * a * (2 * b) / 4 = a * b := by
    rw [show 2 * a * (2 * b) = 4 * (a * b) by ring]
    exact Nat.mul_div_cancel_left (a * b) (by norm_num)
  rw [h2a, hsize]
  have hia : i / 2 < b := by omega
  have hja : j / 2 < a := by omega
  calc i / 2 * a + j / 2 < i / 2 * a + a := by omega
  _ = (i / 2 + 1) * a := by ring
  _ ≤ b * a := Nat.mul_le_mul_right a (by omega)
  _ = a * b := Nat.mul_comm b a

/-- Witness for the amended C9 at `width = height = 2`, pixel (0, 0). -/
theorem chroma_index_in_bounds_even_witness :
    (2 : Nat) % 2 = 0 ∧ chromaIndex 2 0 0 < uvPlaneSize 2 2 :=
  ⟨rfl, chroma_index_in_bounds_even 2 2 0 0 rfl rfl (by decide) (by decide)⟩
